import Mathlib

/-!
Shallow embedding of `src/sink.py` (the `Sink` class together with the thin
provider wrappers it drives).  Record identifiers (Google contact URLs and
Facebook friend URLs) are modelled as natural numbers; Python dicts over those
identifiers become association lists; the external collaborators (the ICU
collator, the fuzzy matcher, the Facebook and Google network calls, the MD5
digest and the wall clock) are abstracted into an `Env` record of pure
functions, exactly at the call boundary the source uses them.
-/

set_option linter.unusedVariables false

namespace Sink

/-- Association-list lookup, modelling Python dict indexing over keys. -/
def lookupA {α : Type} : List (Nat × α) → Nat → Option α
  | [], _ => none
  | (k, v) :: l, k' => if k = k' then some v else lookupA l k'

/-- Membership test, modelling the Python `in` operator on dicts. -/
def hasKey {α : Type} (l : List (Nat × α)) (k : Nat) : Bool :=
  (lookupA l k).isSome

/-- Lookup with a default value. -/
def lookupD {α : Type} (l : List (Nat × α)) (k : Nat) (d : α) : α :=
  (lookupA l k).getD d

/-- Dict assignment `d[k] = v`: replace in place when the key exists, append
otherwise (Python dicts keep insertion order). -/
def insertA {α : Type} (l : List (Nat × α)) (k : Nat) (v : α) : List (Nat × α) :=
  if hasKey l k then l.map (fun kv => if kv.1 = k then (k, v) else kv)
  else l ++ [(k, v)]

/-- Ordered insertion used by `sortBy`. -/
def insOrd {α : Type} (le : α → α → Bool) (a : α) : List α → List α
  | [] => [a]
  | b :: l => if le a b then a :: b :: l else b :: insOrd le a l

/-- Insertion sort, modelling Python's `sorted` with a key function folded
into the comparison `le`. -/
def sortBy {α : Type} (le : α → α → Bool) : List α → List α
  | [] => []
  | a :: l => insOrd le a (sortBy le l)

/-- External collaborators of the core, abstracted as pure functions:
the ICU collation key, `process.extract` over the friend pool, the Facebook
user-id resolution and profile-picture fetch, the MD5 hex digest, the
success/failure of each `google.update_photo` attempt, and the clock. -/
structure Env where
  getSortKey : String → Nat
  matcher : String → Nat → List (String × Nat × Nat)
  getUserId : Nat → Option Nat
  getProfilePicture : Nat → Option (List Nat)
  md5hex : List Nat → String
  pushResults : Nat → Nat → Bool
  now : Nat

/-- In-memory state of one `Sink` run: the two read-only collection
snapshots, the three mutable maps, and the durable (shelf) copy of each map. -/
structure SinkState where
  contacts : List (Nat × String)
  friends : List (Nat × String)
  links : List (Nat × Option Nat)
  checksums : List (Nat × String)
  timestamps : List (Nat × Nat)
  shelfLinks : List (Nat × Option Nat)
  shelfChecksums : List (Nat × String)
  shelfTimestamps : List (Nat × Nat)
deriving DecidableEq

/-- Condition under which `_clean_links` removes a link entry: its contact is
gone from the contact snapshot, or its (non-null) friend is gone from the
friend snapshot. -/
def linkDead (s : SinkState) (kv : Nat × Option Nat) : Bool :=
  !(hasKey s.contacts kv.1) ||
    (match kv.2 with
     | some f => !(hasKey s.friends f)
     | none => false)

/-- A key whose link entry is removed by the current `_clean_links` pass. -/
def removedKey (s : SinkState) (k : Nat) : Bool :=
  match lookupA s.links k with
  | some v => linkDead s (k, v)
  | none => false

/-- `Sink._clean_links`: drop every link whose contact or friend has
disappeared, and drop the checksum and timestamp entries of exactly those
dropped links.  Mutates only the in-memory maps; the shelf is untouched. -/
def cleanLinks (s : SinkState) : SinkState :=
  { s with
    links := s.links.filter (fun kv => !(linkDead s kv)),
    checksums := s.checksums.filter (fun kv => !(removedKey s kv.1)),
    timestamps := s.timestamps.filter (fun kv => !(removedKey s kv.1)) }

/-- Rank making `None` and friend-url values comparable in the sort key of
`_save_links` (Python sorts pairs `(collation key, value)`). -/
def optRank : Option Nat → Nat
  | none => 0
  | some f => f + 1

/-- Comparison used by `_save_links`: collation key of the contact's display
name first, then the link value. -/
def linkLE (env : Env) (s : SinkState) (a b : Nat × Option Nat) : Bool :=
  let ka := env.getSortKey (lookupD s.contacts a.1 "")
  let kb := env.getSortKey (lookupD s.contacts b.1 "")
  decide (ka < kb) || (decide (ka = kb) && decide (optRank a.2 ≤ optRank b.2))

/-- `Sink._save_links`: re-sort the link map and write the whole map through
to the shelf. -/
def saveLinks (env : Env) (s : SinkState) : SinkState :=
  let ls := sortBy (linkLE env s) s.links
  { s with links := ls, shelfLinks := ls }

/-- `Sink._add_link`: set the link and persist the whole link map. -/
def addLink (env : Env) (s : SinkState) (c : Nat) (f : Option Nat) : SinkState :=
  saveLinks env { s with links := insertA s.links c f }

/-- `Sink._delete_links`: clear the link map and persist it; the checksum and
timestamp maps are not touched. -/
def deleteLinks (env : Env) (s : SinkState) : SinkState :=
  saveLinks env { s with links := [] }

/-- `Sink._set_checksum`: set one checksum and write the whole checksum map
through to the shelf. -/
def setChecksum (s : SinkState) (c : Nat) (cs : String) : SinkState :=
  let m := insertA s.checksums c cs
  { s with checksums := m, shelfChecksums := m }

/-- `Sink._set_timestamp`: record the current instant and write the whole
timestamp map through to the shelf. -/
def setTimestamp (env : Env) (s : SinkState) (c : Nat) : SinkState :=
  let m := insertA s.timestamps c env.now
  { s with timestamps := m, shelfTimestamps := m }

/-- `Sink._should_update`: a record is due when it has no timestamp or its
timestamp is more than `expiry` days old. -/
def shouldUpdate (env : Env) (s : SinkState) (c : Nat) (expiry : Nat) : Bool :=
  match lookupA s.timestamps c with
  | none => true
  | some t => decide (env.now > t + expiry)

/-- `Sink._retry`: up to `retries` independent attempts, true as soon as one
succeeds, false when all fail. -/
def retry (f : Nat → Bool) (retries : Nat) : Bool :=
  (List.range retries).any f

/-- Per-record outcome line printed by `_update_photo` (``ignored`` is the
silent early return on a null link). -/
inductive Outcome
  | ignored | skipped | rateLimited | noPicture | unchanged | updated | failed
deriving DecidableEq

/-- `Sink._update_photo`: the per-record sync procedure.  `rateLimited`
models the raised `StopIteration`. -/
def updatePhoto (env : Env) (retries delay expiry : Nat) (s : SinkState) (c : Nat) :
    SinkState × Outcome :=
  match lookupA s.links c with
  | none => (s, .ignored)
  | some none => (s, .ignored)
  | some (some friendUrl) =>
    if !(shouldUpdate env s c expiry) then (s, .skipped)
    else
      match env.getUserId friendUrl with
      | none => (s, .rateLimited)
      | some userId =>
        match env.getProfilePicture userId with
        | none => (s, .noPicture)
        | some pictureBytes =>
          let checksum := env.md5hex pictureBytes
          if lookupA s.checksums c = some checksum then
            (setTimestamp env s c, .unchanged)
          else if retry (env.pushResults c) retries then
            (setTimestamp env (setChecksum s c checksum) c, .updated)
          else
            (setTimestamp env s c, .failed)

/-- Keys of the link map, in map order: the iteration order of
`for contact_url in self.links`. -/
def linkKeys (s : SinkState) : List Nat :=
  s.links.map Prod.fst

/-- Sequential reference loop for `_update_photos`: process the given
contacts in order, stopping right after the first `rateLimited` outcome
(the caught `StopIteration` breaks the dispatch loop). -/
def updatePhotosSeq (env : Env) (retries delay expiry : Nat) :
    List Nat → SinkState → SinkState × List (Nat × Outcome)
  | [], s => (s, [])
  | c :: cs, s =>
    if (updatePhoto env retries delay expiry s c).2 = Outcome.rateLimited then
      ((updatePhoto env retries delay expiry s c).1,
       [(c, (updatePhoto env retries delay expiry s c).2)])
    else
      ((updatePhotosSeq env retries delay expiry cs
          (updatePhoto env retries delay expiry s c).1).1,
       (c, (updatePhoto env retries delay expiry s c).2)
         :: (updatePhotosSeq env retries delay expiry cs
              (updatePhoto env retries delay expiry s c).1).2)

/-- `Sink._update_photos`, as the sequential loop over the link keys. -/
def updatePhotos (env : Env) (retries delay expiry : Nat) (s : SinkState) :
    SinkState × List (Nat × Outcome) :=
  updatePhotosSeq env retries delay expiry (linkKeys s) s

/-- Condition of `_update_links` selecting a contact for (re)linking: no link
entry yet, or an ignored (null) link while `update_ignored` is set. -/
def needsLink (s : SinkState) (updateIgnored : Bool) (c : Nat) : Bool :=
  match lookupA s.links c with
  | none => true
  | some none => updateIgnored
  | some (some _) => false

/-- Test `matches and matches[0][1] == score_threshold` of the auto-link
policy: the match list is nonempty and its top score equals the threshold
exactly. -/
def topScoreIs (ms : List (String × Nat × Nat)) (th : Nat) : Bool :=
  match ms with
  | [] => false
  | (_, sc, _) :: _ => decide (sc = th)

/-- Friend url of the top match, `matches[0][2]`. -/
def topFriend : List (String × Nat × Nat) → Nat
  | [] => 0
  | (_, _, f) :: _ => f

/-- Automatic phase of `_update_links`: walk the contact snapshot, auto-link
each contact that needs a link when the matcher's top score equals the
threshold, queue it for interactive resolution otherwise. -/
def autoPhase (env : Env) (updateIgnored : Bool) (th lim : Nat) :
    List (Nat × String) → SinkState → List Nat → SinkState × List Nat
  | [], s, q => (s, q)
  | (c, name) :: rest, s, q =>
    if needsLink s updateIgnored c then
      if topScoreIs (env.matcher name lim) th then
        autoPhase env updateIgnored th lim rest
          (addLink env s c (some (topFriend (env.matcher name lim)))) q
      else autoPhase env updateIgnored th lim rest s (q ++ [c])
    else autoPhase env updateIgnored th lim rest s q

/-- One line typed at the interactive prompt of `_get_link`: empty input,
an all-digit string with value `n`, or non-digit free text. -/
inductive UserInput
  | empty
  | num (n : Nat)
  | text (t : String)
deriving DecidableEq

/-- Exit condition of the inner prompt loop,
`not command.isdigit() or (int(command) > 0 and int(command) <= match_limit)`:
anything non-digit is accepted, a digit only within `1..match_limit`. -/
def validCmd (lim : Nat) : UserInput → Bool
  | .empty => true
  | .text _ => true
  | .num n => decide (0 < n) && decide (n ≤ lim)

/-- How one `_get_link` call ended: a link to a friend, an ignored (null)
link, an out-of-range index into a short match list (Python `IndexError`),
or exhaustion of the modelled input script. -/
inductive LinkResult
  | linked (f : Nat)
  | ignoredLink
  | crashed
  | stuck
deriving DecidableEq

/-- `Sink._get_link` on an explicit script of prompt inputs.  The outer loop
re-runs the matcher on the current `name` and, in forced-auto mode
(`auto_match`), auto-links when the top score equals the threshold; otherwise
inputs are consumed until one passes `validCmd` (invalid digits simply
re-prompt, which neither re-runs the matcher nor changes any state, so it is
folded into the same recursion), then empty input ignores the contact, an
index selects `matches[n-1]`, and free text becomes the new search name. -/
def getLinkGo (env : Env) (th lim : Nat) (auto : Bool) (c : Nat) :
    String → List UserInput → SinkState → SinkState × LinkResult × List UserInput
  | name, inputs, s =>
    if auto && topScoreIs (env.matcher name lim) th then
      (addLink env s c (some (topFriend (env.matcher name lim))),
       .linked (topFriend (env.matcher name lim)), inputs)
    else
      match inputs with
      | [] => (s, .stuck, [])
      | i :: rest =>
        if validCmd lim i then
          match i with
          | .empty => (addLink env s c none, .ignoredLink, rest)
          | .num n =>
            match (env.matcher name lim).get? (n - 1) with
            | some m => (addLink env s c (some m.2.2), .linked m.2.2, rest)
            | none => (s, .crashed, rest)
          | .text t => getLinkGo env th lim auto c t rest s
        else getLinkGo env th lim auto c name rest s

/-- `Sink._get_link` starting from the contact's display name. -/
def getLink (env : Env) (th lim : Nat) (auto : Bool) (c : Nat) (s : SinkState)
    (inputs : List UserInput) : SinkState × LinkResult × List UserInput :=
  getLinkGo env th lim auto c (lookupD s.contacts c "") inputs s

/-- Interactive phase of `_update_links`: `_get_link` with forced auto-match
over every queued contact. -/
def interactivePhase (env : Env) (th lim : Nat) :
    List Nat → SinkState → List UserInput → SinkState × List UserInput
  | [], s, ins => (s, ins)
  | c :: cs, s, ins =>
    interactivePhase env th lim cs (getLink env th lim true c s ins).1
      (getLink env th lim true c s ins).2.2

/-- `Sink._update_links`: reconcile, auto-link or queue every contact that
needs a link, then resolve the queue interactively unless `auto_only`. -/
def updateLinks (env : Env) (updateIgnored autoOnly : Bool) (th lim : Nat)
    (s : SinkState) (ins : List UserInput) : SinkState × List UserInput :=
  if !autoOnly
      && !(autoPhase env updateIgnored th lim (cleanLinks s).contacts
            (cleanLinks s) []).2.isEmpty then
    interactivePhase env th lim
      (autoPhase env updateIgnored th lim (cleanLinks s).contacts
        (cleanLinks s) []).2
      (autoPhase env updateIgnored th lim (cleanLinks s).contacts
        (cleanLinks s) []).1 ins
  else
    ((autoPhase env updateIgnored th lim (cleanLinks s).contacts
        (cleanLinks s) []).1, ins)

/-- Configuration of the `_update_photos` thread pool together with the main
thread: contacts not yet submitted, submitted-but-not-started tasks, started
tasks, the completion log, the shared state, the future the main thread is
blocked on, and whether the main loop has ended (normally or by `break`). -/
structure PoolConf where
  todo : List Nat
  pending : List Nat
  running : List Nat
  finished : List (Nat × Outcome)
  st : SinkState
  waiting : Option Nat
  halted : Bool
deriving DecidableEq

/-- Small-step semantics of `_update_photos`: the main thread alternates
`pool.submit` (immediately followed by blocking on `future.result()`) with
collecting that result — a caught `StopIteration` breaks the loop — while
workers may start any pending task subject to the pool bound and complete
running tasks, each task executing `_update_photo` against the shared
state. -/
inductive PoolStep (env : Env) (retries delay expiry threads : Nat) :
    PoolConf → PoolConf → Prop
  | submit (p : PoolConf) (c : Nat) (rest : List Nat) :
      p.halted = false → p.waiting = none → p.todo = c :: rest →
      PoolStep env retries delay expiry threads p
        { p with todo := rest, pending := p.pending ++ [c], waiting := some c }
  | mainDone (p : PoolConf) :
      p.halted = false → p.waiting = none → p.todo = [] →
      PoolStep env retries delay expiry threads p { p with halted := true }
  | start (p : PoolConf) (c : Nat) (ps : List Nat) :
      p.pending = c :: ps → p.running.length < threads →
      PoolStep env retries delay expiry threads p
        { p with pending := ps, running := p.running ++ [c] }
  | finish (p : PoolConf) (c : Nat) :
      c ∈ p.running →
      PoolStep env retries delay expiry threads p
        { p with running := p.running.erase c,
                 finished := p.finished
                   ++ [(c, (updatePhoto env retries delay expiry p.st c).2)],
                 st := (updatePhoto env retries delay expiry p.st c).1 }
  | collectOk (p : PoolConf) (c : Nat) (o : Outcome) :
      p.waiting = some c → (c, o) ∈ p.finished → o ≠ Outcome.rateLimited →
      PoolStep env retries delay expiry threads p { p with waiting := none }
  | collectFatal (p : PoolConf) (c : Nat) :
      p.waiting = some c → (c, Outcome.rateLimited) ∈ p.finished →
      PoolStep env retries delay expiry threads p
        { p with waiting := none, halted := true }

/-- Initial pool configuration of one `_update_photos` call. -/
def poolInit (s : SinkState) : PoolConf :=
  { todo := linkKeys s, pending := [], running := [], finished := [],
    st := s, waiting := none, halted := false }

/-- Reflexive-transitive closure of `PoolStep`. -/
inductive PoolReach (env : Env) (retries delay expiry threads : Nat) :
    PoolConf → PoolConf → Prop
  | refl (p : PoolConf) : PoolReach env retries delay expiry threads p p
  | tail (p q r : PoolConf) :
      PoolReach env retries delay expiry threads p q →
      PoolStep env retries delay expiry threads q r →
      PoolReach env retries delay expiry threads p r

/-- No outcome in the log is the fatal rate-limit signal. -/
def noFatal (log : List (Nat × Outcome)) : Prop :=
  ∀ x ∈ log, x.2 ≠ Outcome.rateLimited

/-- Invariant tying every reachable pool configuration to the sequential
reference loop: the main thread is either idle between records, blocked on a
task that is pending, running or just finished, or halted with exactly the
sequential result. -/
def PoolInv (env : Env) (retries delay expiry : Nat) (keys : List Nat)
    (s0 : SinkState) (p : PoolConf) : Prop :=
  (∃ done, keys = done ++ p.todo ∧
    noFatal (updatePhotosSeq env retries delay expiry done s0).2 ∧
    p.st = (updatePhotosSeq env retries delay expiry done s0).1 ∧
    p.finished = (updatePhotosSeq env retries delay expiry done s0).2 ∧
    p.pending = [] ∧ p.running = [] ∧ p.waiting = none ∧ p.halted = false)
  ∨ (∃ done c rest, keys = done ++ c :: rest ∧ p.todo = rest ∧
      noFatal (updatePhotosSeq env retries delay expiry done s0).2 ∧
      p.st = (updatePhotosSeq env retries delay expiry done s0).1 ∧
      p.finished = (updatePhotosSeq env retries delay expiry done s0).2 ∧
      ((p.pending = [c] ∧ p.running = []) ∨ (p.pending = [] ∧ p.running = [c])) ∧
      p.waiting = some c ∧ p.halted = false)
  ∨ (∃ done c rest, keys = done ++ c :: rest ∧ p.todo = rest ∧
      noFatal (updatePhotosSeq env retries delay expiry done s0).2 ∧
      p.st = (updatePhoto env retries delay expiry
        (updatePhotosSeq env retries delay expiry done s0).1 c).1 ∧
      p.finished = (updatePhotosSeq env retries delay expiry done s0).2
        ++ [(c, (updatePhoto env retries delay expiry
              (updatePhotosSeq env retries delay expiry done s0).1 c).2)] ∧
      p.pending = [] ∧ p.running = [] ∧ p.waiting = some c ∧ p.halted = false)
  ∨ (p.pending = [] ∧ p.running = [] ∧ p.waiting = none ∧ p.halted = true ∧
      p.st = (updatePhotosSeq env retries delay expiry keys s0).1 ∧
      p.finished = (updatePhotosSeq env retries delay expiry keys s0).2)

/-- Environment in which every external call returns a fixed inert answer. -/
def envA : Env :=
  { getSortKey := fun _ => 0
    matcher := fun _ _ => []
    getUserId := fun _ => none
    getProfilePicture := fun _ => none
    md5hex := fun _ => ""
    pushResults := fun _ _ => false
    now := 0 }

/-- State with one link whose contact has vanished and one orphan-capable
checksum and timestamp entry, durably in sync with memory. -/
def stOrphan : SinkState :=
  { contacts := []
    friends := []
    links := [(0, some 1)]
    checksums := [(0, "h")]
    timestamps := [(0, 5)]
    shelfLinks := [(0, some 1)]
    shelfChecksums := [(0, "h")]
    shelfTimestamps := [(0, 5)] }

/-- Environment for the silhouette/no-picture scenario: resolution succeeds
but the profile picture is reported unavailable. -/
def envNoPic : Env :=
  { getSortKey := fun _ => 0
    matcher := fun _ _ => []
    getUserId := fun _ => some 42
    getProfilePicture := fun _ => none
    md5hex := fun _ => ""
    pushResults := fun _ _ => false
    now := 99 }

/-- State with a single linked, never-synced record. -/
def stDue : SinkState :=
  { contacts := [(0, "A")]
    friends := [(1, "B")]
    links := [(0, some 1)]
    checksums := []
    timestamps := []
    shelfLinks := [(0, some 1)]
    shelfChecksums := []
    shelfTimestamps := [] }

/-- Environment for the all-retries-fail scenario: artifact fetches succeed
with fixed bytes hashing to "H1", every push attempt fails. -/
def envPushFail : Env :=
  { getSortKey := fun _ => 0
    matcher := fun _ _ => []
    getUserId := fun _ => some 42
    getProfilePicture := fun _ => some [1, 2, 3]
    md5hex := fun _ => "H1"
    pushResults := fun _ _ => false
    now := 99 }

/-- State with a single linked record carrying an older checksum. -/
def stOldSum : SinkState :=
  { contacts := [(0, "A")]
    friends := [(1, "B")]
    links := [(0, some 1)]
    checksums := [(0, "OLD")]
    timestamps := []
    shelfLinks := [(0, some 1)]
    shelfChecksums := [(0, "OLD")]
    shelfTimestamps := [] }

/-- Environment for the checksum-dedup scenario: fetched bytes hash to the
already-stored digest. -/
def envSameSum : Env :=
  { getSortKey := fun _ => 0
    matcher := fun _ _ => []
    getUserId := fun _ => some 42
    getProfilePicture := fun _ => some [1, 2, 3]
    md5hex := fun _ => "OLD"
    pushResults := fun _ _ => true
    now := 99 }

/-- Environment whose matcher scores an exact-name query at 100 and anything
else below threshold. -/
def envMatch : Env :=
  { getSortKey := fun _ => 0
    matcher := fun q _ =>
      if q = "Jane Doe" then [("Jane Doe", 100, 1), ("Jane D.", 90, 2)]
      else [("Jane Doe", 50, 1)]
    getUserId := fun _ => none
    getProfilePicture := fun _ => none
    md5hex := fun _ => ""
    pushResults := fun _ _ => false
    now := 0 }

/-- State with one unlinked contact and the two candidate friends. -/
def stNoLink : SinkState :=
  { contacts := [(0, "Jane Doe")]
    friends := [(1, "Jane Doe"), (2, "Jane D.")]
    links := []
    checksums := []
    timestamps := []
    shelfLinks := []
    shelfChecksums := []
    shelfTimestamps := [] }

/-- State with one unlinked contact whose own name scores below the
threshold, so only a free-text re-search can auto-link it. -/
def stMisnamed : SinkState :=
  { contacts := [(0, "J. Doe")]
    friends := [(1, "Jane Doe"), (2, "Jane D.")]
    links := []
    checksums := []
    timestamps := []
    shelfLinks := []
    shelfChecksums := []
    shelfTimestamps := [] }

/-- Classifier for prompt inputs that the claim designates as the only
loop-terminating ones: a (1-based) index or empty input. -/
def isIndexOrEmpty : UserInput → Bool
  | .empty => true
  | .num _ => true
  | .text _ => false

/-- State with no links at all, for the empty pool run. -/
def stEmpty : SinkState :=
  { contacts := []
    friends := []
    links := []
    checksums := []
    timestamps := []
    shelfLinks := []
    shelfChecksums := []
    shelfTimestamps := [] }

theorem lookupA_mem {α : Type} {l : List (Nat × α)} {k : Nat} {v : α}
    (h : lookupA l k = some v) : (k, v) ∈ l := by
  induction l with
  | nil => simp [lookupA] at h
  | cons kv l ih =>
    obtain ⟨k', v'⟩ := kv
    by_cases hk : k' = k
    · subst hk
      simp [lookupA] at h
      simp [h]
    · simp [lookupA, hk] at h
      exact List.mem_cons_of_mem _ (ih h)

theorem filter_eq_self_of {α : Type} {p : α → Bool} {l : List α}
    (h : ∀ a ∈ l, p a = true) : l.filter p = l := by
  induction l with
  | nil => rfl
  | cons a l ih =>
    have ha := h a (List.mem_cons_self a l)
    have ih' := ih (fun b hb => h b (List.mem_cons_of_mem a hb))
    simp [List.filter_cons, ha, ih']

theorem linkDead_cleanLinks (s : SinkState) (kv : Nat × Option Nat) :
    linkDead (cleanLinks s) kv = linkDead s kv := rfl

theorem removedKey_cleanLinks (s : SinkState) (k : Nat) :
    removedKey (cleanLinks s) k = false := by
  unfold removedKey
  cases hl : lookupA (cleanLinks s).links k with
  | none => rfl
  | some v =>
    have hmem := lookupA_mem hl
    simp only [cleanLinks] at hmem
    have := (List.mem_filter.mp hmem).2
    simp only [Bool.not_eq_eq_eq_not, Bool.not_true] at this
    simpa [linkDead_cleanLinks] using this

theorem lookupA_map_replace {α : Type} (l : List (Nat × α)) (k : Nat) (v : α)
    (h : hasKey l k = true) :
    lookupA (l.map (fun kv => if kv.1 = k then (k, v) else kv)) k = some v := by
  induction l with
  | nil => simp [hasKey, lookupA] at h
  | cons kv l ih =>
    obtain ⟨k', v'⟩ := kv
    by_cases hk : k' = k
    · subst hk
      have hhead : ((k', v') :: l).map (fun kv => if kv.1 = k' then (k', v) else kv)
          = (k', v) :: l.map (fun kv => if kv.1 = k' then (k', v) else kv) := by
        simp
      rw [hhead]
      simp [lookupA]
    · have hhead : ((k', v') :: l).map (fun kv => if kv.1 = k then (k, v) else kv)
          = (k', v') :: l.map (fun kv => if kv.1 = k then (k, v) else kv) := by
        simp [hk]
      rw [hhead]
      have h' : hasKey l k = true := by
        simpa [hasKey, lookupA, hk] using h
      simp [lookupA, hk, ih h']

theorem lookupA_append_self {α : Type} (l : List (Nat × α)) (k : Nat) (v : α)
    (h : hasKey l k = false) :
    lookupA (l ++ [(k, v)]) k = some v := by
  induction l with
  | nil => simp [lookupA]
  | cons kv l ih =>
    obtain ⟨k', v'⟩ := kv
    by_cases hk : k' = k
    · subst hk
      simp [hasKey, lookupA] at h
    · have h' : hasKey l k = false := by
        simpa [hasKey, lookupA, hk] using h
      simp [lookupA, hk, ih h']

theorem lookupA_insertA_self {α : Type} (l : List (Nat × α)) (k : Nat) (v : α) :
    lookupA (insertA l k v) k = some v := by
  unfold insertA
  by_cases h : hasKey l k
  · simp only [h, if_true]
    exact lookupA_map_replace l k v h
  · simp only [Bool.not_eq_true] at h
    simp only [h, Bool.false_eq_true, if_false]
    exact lookupA_append_self l k v h

theorem retry_eq_false {f : Nat → Bool} {n : Nat} (h : ∀ i, i < n → f i = false) :
    retry f n = false := by
  simp only [retry, List.any_eq_false, List.mem_range]
  intro i hi
  simp [h i hi]

theorem insOrd_perm {α : Type} (le : α → α → Bool) (a : α) (l : List α) :
    (insOrd le a l).Perm (a :: l) := by
  induction l with
  | nil => simp [insOrd]
  | cons b l ih =>
    cases h : le a b with
    | true => simp [insOrd, h]
    | false =>
      simp only [insOrd, h, Bool.false_eq_true, if_false]
      exact (List.Perm.cons b ih).trans (List.Perm.swap a b l)

theorem sortBy_perm {α : Type} (le : α → α → Bool) (l : List α) :
    (sortBy le l).Perm l := by
  induction l with
  | nil => simp [sortBy]
  | cons a l ih =>
    exact (insOrd_perm le a (sortBy le l)).trans (List.Perm.cons a ih)

theorem lookupA_eq_none_iff {α : Type} {l : List (Nat × α)} {k : Nat} :
    lookupA l k = none ↔ k ∉ l.map Prod.fst := by
  induction l with
  | nil => simp [lookupA]
  | cons kv l ih =>
    obtain ⟨k', v'⟩ := kv
    by_cases hk : k' = k
    · subst hk
      simp [lookupA]
    · simp [lookupA, hk, ih, Ne.symm hk]

theorem lookupA_of_mem_nodup {α : Type} {l : List (Nat × α)} {k : Nat} {v : α}
    (hnd : (l.map Prod.fst).Nodup) (hm : (k, v) ∈ l) : lookupA l k = some v := by
  induction l with
  | nil => simp at hm
  | cons kv l ih =>
    obtain ⟨k', v'⟩ := kv
    simp only [List.map_cons, List.nodup_cons] at hnd
    rcases List.mem_cons.mp hm with heq | hmem
    · cases heq
      simp [lookupA]
    · have hk : k' ≠ k := by
        intro hkk
        subst hkk
        exact hnd.1 (List.mem_map.mpr ⟨(k', v), hmem, rfl⟩)
      simp [lookupA, hk, ih hnd.2 hmem]

theorem lookupA_perm {α : Type} {l₁ l₂ : List (Nat × α)} (hp : l₁.Perm l₂)
    (hnd : (l₁.map Prod.fst).Nodup) (k : Nat) : lookupA l₁ k = lookupA l₂ k := by
  have hnd₂ : (l₂.map Prod.fst).Nodup := ((hp.map Prod.fst).nodup_iff).mp hnd
  cases h1 : lookupA l₁ k with
  | none =>
    have hk : k ∉ l₁.map Prod.fst := lookupA_eq_none_iff.mp h1
    have hk₂ : k ∉ l₂.map Prod.fst := fun hm => hk ((hp.map Prod.fst).mem_iff.mpr hm)
    exact (lookupA_eq_none_iff.mpr hk₂).symm
  | some v =>
    have hm := lookupA_mem h1
    exact (lookupA_of_mem_nodup hnd₂ (hp.mem_iff.mp hm)).symm

theorem insertA_keys_nodup {α : Type} {l : List (Nat × α)} {k : Nat} {v : α}
    (hnd : (l.map Prod.fst).Nodup) : ((insertA l k v).map Prod.fst).Nodup := by
  unfold insertA
  by_cases h : hasKey l k
  · simp only [h, if_true]
    have hkeys : (l.map (fun kv => if kv.1 = k then (k, v) else kv)).map Prod.fst
        = l.map Prod.fst := by
      rw [List.map_map]
      apply List.map_congr_left
      intro kv _
      by_cases hk : kv.1 = k
      · simp [Function.comp, hk]
      · simp [Function.comp, hk]
    rw [hkeys]
    exact hnd
  · simp only [Bool.not_eq_true] at h
    simp only [h, Bool.false_eq_true, if_false, List.map_append]
    have hnone : lookupA l k = none := by
      cases hl : lookupA l k with
      | none => rfl
      | some v' => simp [hasKey, hl] at h
    have hk : k ∉ l.map Prod.fst := lookupA_eq_none_iff.mp hnone
    simp [List.nodup_append, hnd, hk]

theorem lookupA_addLink (env : Env) (s : SinkState) (c : Nat) (v : Option Nat)
    (hnd : (s.links.map Prod.fst).Nodup) :
    lookupA (addLink env s c v).links c = some v := by
  have hlinks : (addLink env s c v).links
      = sortBy (linkLE env { s with links := insertA s.links c v })
          (insertA s.links c v) := rfl
  have hperm := sortBy_perm (linkLE env { s with links := insertA s.links c v })
    (insertA s.links c v)
  have hnd' : ((insertA s.links c v).map Prod.fst).Nodup := insertA_keys_nodup hnd
  have hndSorted : ((sortBy (linkLE env { s with links := insertA s.links c v })
      (insertA s.links c v)).map Prod.fst).Nodup :=
    ((hperm.map Prod.fst).nodup_iff).mpr hnd'
  rw [hlinks, lookupA_perm hperm hndSorted c]
  exact lookupA_insertA_self s.links c v

/-- Claim C9: reconciliation (`_clean_links`) is idempotent — running it twice
in a row yields Link, Checksum and Timestamp maps (and the whole state)
identical to running it once. -/
theorem cleanLinks_idempotent (s : SinkState) :
    cleanLinks (cleanLinks s) = cleanLinks s := by
  have hlinks : (cleanLinks s).links.filter (fun kv => !(linkDead (cleanLinks s) kv))
      = (cleanLinks s).links := by
    apply filter_eq_self_of
    intro kv hkv
    simp only [cleanLinks] at hkv
    have := (List.mem_filter.mp hkv).2
    simpa [linkDead_cleanLinks] using this
  have hck : (cleanLinks s).checksums.filter
      (fun kv => !(removedKey (cleanLinks s) kv.1)) = (cleanLinks s).checksums := by
    apply filter_eq_self_of
    intro kv _
    simp [removedKey_cleanLinks]
  have hts : (cleanLinks s).timestamps.filter
      (fun kv => !(removedKey (cleanLinks s) kv.1)) = (cleanLinks s).timestamps := by
    apply filter_eq_self_of
    intro kv _
    simp [removedKey_cleanLinks]
  show ({ cleanLinks s with
      links := (cleanLinks s).links.filter (fun kv => !(linkDead (cleanLinks s) kv)),
      checksums := (cleanLinks s).checksums.filter
        (fun kv => !(removedKey (cleanLinks s) kv.1)),
      timestamps := (cleanLinks s).timestamps.filter
        (fun kv => !(removedKey (cleanLinks s) kv.1)) } : SinkState) = cleanLinks s
  rw [hlinks, hck, hts]

/-- Claim C1, counterexample: from a state whose checksum and timestamp maps
are nonempty, `deleteLinks` followed by `reconcile` (`_clean_links`) does not
leave the Checksum and Timestamp maps empty — only the Link map is cleared,
refuting the claimed transitive invalidation. -/
theorem deleteLinks_reconcile_cex :
    (cleanLinks (deleteLinks envA stOrphan)).links = [] ∧
    ¬ ((cleanLinks (deleteLinks envA stOrphan)).checksums = [] ∧
       (cleanLinks (deleteLinks envA stOrphan)).timestamps = []) := by
  decide

/-- Claim C1, amended: `deleteLinks` clears the Link map and persists it
immediately, but leaves the Checksum and Timestamp maps (and their shelves)
untouched; running `deleteLinks` followed by `reconcile` therefore leaves the
Link map empty while the Checksum and Timestamp maps keep all their previous
entries. -/
theorem deleteLinks_reconcile_spec (env : Env) (s : SinkState) :
    (deleteLinks env s).links = [] ∧
    (deleteLinks env s).shelfLinks = [] ∧
    (cleanLinks (deleteLinks env s)).links = [] ∧
    (cleanLinks (deleteLinks env s)).checksums = s.checksums ∧
    (cleanLinks (deleteLinks env s)).timestamps = s.timestamps := by
  have hrem : ∀ k, removedKey (deleteLinks env s) k = false := by
    intro k
    rfl
  refine ⟨rfl, rfl, rfl, ?_, ?_⟩
  · show (deleteLinks env s).checksums.filter
        (fun kv => !(removedKey (deleteLinks env s) kv.1)) = s.checksums
    have : (deleteLinks env s).checksums = s.checksums := rfl
    rw [this]
    apply filter_eq_self_of
    intro kv _
    simp [hrem]
  · show (deleteLinks env s).timestamps.filter
        (fun kv => !(removedKey (deleteLinks env s) kv.1)) = s.timestamps
    have : (deleteLinks env s).timestamps = s.timestamps := rfl
    rw [this]
    apply filter_eq_self_of
    intro kv _
    simp [hrem]

/-- Claim C4, counterexample: the pruning done by `reconcile`
(`_clean_links`) mutates the in-memory Link map without re-persisting it, so
right after it the durable representation differs from the in-memory map. -/
theorem cleanLinks_not_write_through_cex :
    (cleanLinks stOrphan).links ≠ (cleanLinks stOrphan).shelfLinks := by
  decide

/-- Claim C4, amended: the mutations performed through `_save_links`
(`addLink`, `deleteLinks`), `_set_checksum` and `_set_timestamp` re-persist
the entire in-memory map of the mutated category (write-through), but the
pruning done by `reconcile` (`_clean_links`) mutates the three in-memory maps
only and leaves every durable map as it was. -/
theorem write_through_spec :
    (∀ env s c f, (addLink env s c f).links = (addLink env s c f).shelfLinks) ∧
    (∀ env s, (deleteLinks env s).links = (deleteLinks env s).shelfLinks) ∧
    (∀ s c cs, (setChecksum s c cs).checksums = (setChecksum s c cs).shelfChecksums) ∧
    (∀ env s c, (setTimestamp env s c).timestamps = (setTimestamp env s c).shelfTimestamps) ∧
    (∀ s, (cleanLinks s).shelfLinks = s.shelfLinks ∧
          (cleanLinks s).shelfChecksums = s.shelfChecksums ∧
          (cleanLinks s).shelfTimestamps = s.shelfTimestamps) :=
  ⟨fun _ _ _ _ => rfl, fun _ _ => rfl, fun _ _ _ => rfl, fun _ _ _ => rfl,
   fun _ => ⟨rfl, rfl, rfl⟩⟩

/-- Claim C2, counterexample: on a linked, due record whose provider reports
no artifact, `_update_photo` reports `noPicture` but does not record any
attempt timestamp — the timestamp map stays empty, refuting the claim. -/
theorem updatePhoto_noPicture_cex :
    (updatePhoto envNoPic 3 0 30 stDue 0).2 = Outcome.noPicture ∧
    (updatePhoto envNoPic 3 0 30 stDue 0).1.timestamps = [] ∧
    lookupA (updatePhoto envNoPic 3 0 30 stDue 0).1.timestamps 0 = none := by
  decide

/-- Claim C2, amended: for every linked record that is due for sync, if the
candidate provider reports no artifact available, the per-record sync
procedure reports `noPicture` and leaves the state — in particular the
Timestamp map — completely unchanged, so no attempt timestamp is recorded. -/
theorem updatePhoto_noPicture (env : Env) (retries delay expiry : Nat)
    (s : SinkState) (c f uid : Nat)
    (h1 : lookupA s.links c = some (some f))
    (h2 : shouldUpdate env s c expiry = true)
    (h3 : env.getUserId f = some uid)
    (h4 : env.getProfilePicture uid = none) :
    updatePhoto env retries delay expiry s c = (s, Outcome.noPicture) := by
  simp [updatePhoto, h1, h2, h3, h4]

/-- Claim C2 witness: the amended statement evaluated on the concrete
silhouette scenario. -/
theorem updatePhoto_noPicture_witness :
    updatePhoto envNoPic 3 0 30 stDue 0 = (stDue, Outcome.noPicture) :=
  updatePhoto_noPicture envNoPic 3 0 30 stDue 0 1 42 (by decide) (by decide)
    (by decide) (by decide)

/-- Claim C6: for a linked, due record whose fetched artifact checksum
differs from the stored one, if all `retries` push attempts fail the outcome
is `failed`, the Timestamp is still updated to now, and the stored Checksum
map is left unchanged. -/
theorem updatePhoto_failed (env : Env) (retries delay expiry : Nat)
    (s : SinkState) (c f uid : Nat) (pictureBytes : List Nat)
    (h1 : lookupA s.links c = some (some f))
    (h2 : shouldUpdate env s c expiry = true)
    (h3 : env.getUserId f = some uid)
    (h4 : env.getProfilePicture uid = some pictureBytes)
    (h5 : lookupA s.checksums c ≠ some (env.md5hex pictureBytes))
    (h6 : ∀ i, i < retries → env.pushResults c i = false) :
    updatePhoto env retries delay expiry s c = (setTimestamp env s c, Outcome.failed) ∧
    (updatePhoto env retries delay expiry s c).1.checksums = s.checksums ∧
    lookupA (updatePhoto env retries delay expiry s c).1.timestamps c = some env.now := by
  have hr : retry (env.pushResults c) retries = false := retry_eq_false h6
  have heq : updatePhoto env retries delay expiry s c
      = (setTimestamp env s c, Outcome.failed) := by
    simp [updatePhoto, h1, h2, h3, h4, h5, hr]
  refine ⟨heq, ?_, ?_⟩
  · rw [heq]
    rfl
  · rw [heq]
    exact lookupA_insertA_self s.timestamps c env.now

/-- Claim C6 witness: the statement evaluated on the concrete scenario where
provider A's attach fails all 3 retries. -/
theorem updatePhoto_failed_witness :
    updatePhoto envPushFail 3 0 30 stOldSum 0
      = (setTimestamp envPushFail stOldSum 0, Outcome.failed) ∧
    (updatePhoto envPushFail 3 0 30 stOldSum 0).1.checksums = stOldSum.checksums ∧
    lookupA (updatePhoto envPushFail 3 0 30 stOldSum 0).1.timestamps 0
      = some envPushFail.now :=
  updatePhoto_failed envPushFail 3 0 30 stOldSum 0 1 42 [1, 2, 3] (by decide)
    (by decide) (by decide) (by decide) (by decide) (fun _ _ => rfl)

/-- Claim C7: for a linked, due record whose fetched artifact hashes to the
stored Checksum, the sync procedure reports `unchanged`, records the attempt
Timestamp, and never consults the push operation — its result is the same
under any replacement of provider A's attach behavior. -/
theorem updatePhoto_unchanged (env : Env) (retries delay expiry : Nat)
    (s : SinkState) (c f uid : Nat) (pictureBytes : List Nat)
    (h1 : lookupA s.links c = some (some f))
    (h2 : shouldUpdate env s c expiry = true)
    (h3 : env.getUserId f = some uid)
    (h4 : env.getProfilePicture uid = some pictureBytes)
    (h5 : lookupA s.checksums c = some (env.md5hex pictureBytes)) :
    updatePhoto env retries delay expiry s c = (setTimestamp env s c, Outcome.unchanged) ∧
    lookupA (updatePhoto env retries delay expiry s c).1.timestamps c = some env.now ∧
    (∀ p, updatePhoto { env with pushResults := p } retries delay expiry s c
      = updatePhoto env retries delay expiry s c) := by
  have heq : ∀ p : Nat → Nat → Bool,
      updatePhoto { env with pushResults := p } retries delay expiry s c
        = (setTimestamp env s c, Outcome.unchanged) := by
    intro p
    have h2' : shouldUpdate { env with pushResults := p } s c expiry = true := h2
    simp [updatePhoto, h1, h2', h3, h4, h5, setTimestamp]
  have heq0 : updatePhoto env retries delay expiry s c
      = (setTimestamp env s c, Outcome.unchanged) := by
    simp [updatePhoto, h1, h2, h3, h4, h5]
  refine ⟨heq0, ?_, ?_⟩
  · rw [heq0]
    exact lookupA_insertA_self s.timestamps c env.now
  · intro p
    rw [heq p, heq0]

/-- Claim C7 witness: the statement evaluated on the concrete byte-identical
refetch scenario. -/
theorem updatePhoto_unchanged_witness :
    updatePhoto envSameSum 3 0 30 stOldSum 0
      = (setTimestamp envSameSum stOldSum 0, Outcome.unchanged) ∧
    lookupA (updatePhoto envSameSum 3 0 30 stOldSum 0).1.timestamps 0
      = some envSameSum.now ∧
    (∀ p, updatePhoto { envSameSum with pushResults := p } 3 0 30 stOldSum 0
      = updatePhoto envSameSum 3 0 30 stOldSum 0) :=
  updatePhoto_unchanged envSameSum 3 0 30 stOldSum 0 1 42 [1, 2, 3] (by decide)
    (by decide) (by decide) (by decide) (by decide)

theorem updatePhotosSeq_fatal_last (env : Env) (retries delay expiry : Nat) :
    ∀ (cs : List Nat) (s : SinkState) (l₁ l₂ : List (Nat × Outcome)) (c : Nat),
      (updatePhotosSeq env retries delay expiry cs s).2
          = l₁ ++ (c, Outcome.rateLimited) :: l₂ →
      l₂ = [] ∧ ∃ pre post,
        cs = pre ++ c :: post ∧
        (updatePhotosSeq env retries delay expiry cs s).2
          = (updatePhotosSeq env retries delay expiry pre s).2
              ++ [(c, Outcome.rateLimited)] ∧
        (updatePhotosSeq env retries delay expiry cs s).1
          = (updatePhoto env retries delay expiry
              (updatePhotosSeq env retries delay expiry pre s).1 c).1 ∧
        (updatePhoto env retries delay expiry
            (updatePhotosSeq env retries delay expiry pre s).1 c).2
          = Outcome.rateLimited := by
  intro cs
  induction cs with
  | nil =>
    intro s l₁ l₂ c h
    simp [updatePhotosSeq] at h
  | cons c₀ cs ih =>
    intro s l₁ l₂ c h
    by_cases hr : (updatePhoto env retries delay expiry s c₀).2 = Outcome.rateLimited
    · have hstep : updatePhotosSeq env retries delay expiry (c₀ :: cs) s
          = ((updatePhoto env retries delay expiry s c₀).1,
             [(c₀, (updatePhoto env retries delay expiry s c₀).2)]) := by
        simp only [updatePhotosSeq]
        rw [if_pos hr]
      rw [hstep, hr] at h
      simp only at h
      cases l₁ with
      | nil =>
        simp only [List.nil_append, List.cons.injEq, Prod.mk.injEq] at h
        obtain ⟨⟨hc, -⟩, hl⟩ := h
        subst hc
        refine ⟨hl.symm, [], cs, rfl, ?_, ?_, hr⟩
        · rw [hstep, hr]
          simp [updatePhotosSeq]
        · rw [hstep]
          simp [updatePhotosSeq]
      | cons x xs =>
        simp only [List.cons_append, List.cons.injEq] at h
        exact absurd h.2 (by simp)
    · have hstep : updatePhotosSeq env retries delay expiry (c₀ :: cs) s
          = ((updatePhotosSeq env retries delay expiry cs
                (updatePhoto env retries delay expiry s c₀).1).1,
             (c₀, (updatePhoto env retries delay expiry s c₀).2)
               :: (updatePhotosSeq env retries delay expiry cs
                    (updatePhoto env retries delay expiry s c₀).1).2) := by
        simp only [updatePhotosSeq]
        rw [if_neg hr]
      rw [hstep] at h
      simp only at h
      cases l₁ with
      | nil =>
        simp only [List.nil_append, List.cons.injEq, Prod.mk.injEq] at h
        exact absurd h.1.2 hr
      | cons x xs =>
        simp only [List.cons_append, List.cons.injEq] at h
        obtain ⟨-, htail⟩ := h
        obtain ⟨hl₂, pre, post, hcs, hlog, hst, hout⟩ :=
          ih (updatePhoto env retries delay expiry s c₀).1 xs l₂ c htail
        have hstep2 : updatePhotosSeq env retries delay expiry (c₀ :: pre) s
            = ((updatePhotosSeq env retries delay expiry pre
                  (updatePhoto env retries delay expiry s c₀).1).1,
               (c₀, (updatePhoto env retries delay expiry s c₀).2)
                 :: (updatePhotosSeq env retries delay expiry pre
                      (updatePhoto env retries delay expiry s c₀).1).2) := by
          simp only [updatePhotosSeq]
          rw [if_neg hr]
        refine ⟨hl₂, c₀ :: pre, post, by rw [hcs, List.cons_append], ?_, ?_, ?_⟩
        · rw [hstep, hstep2]
          simp only [List.cons_append, List.cons.injEq, true_and]
          exact hlog
        · rw [hstep, hstep2]
          exact hst
        · rw [hstep2]
          exact hout

/-- Claim C5: if candidate-id resolution fails (rate-limit signal) for a
record during the photo-update pass, the fatal outcome is the last line
reported — no record after it in link-map order is dispatched, the failure
appears exactly once, and the pass returns normally with the state (and
hence all per-record persisted progress) accumulated over the prefix that
ran before the failing record. -/
theorem updatePhotos_fatal_stops (env : Env) (retries delay expiry : Nat)
    (s : SinkState) (l₁ l₂ : List (Nat × Outcome)) (c : Nat)
    (h : (updatePhotos env retries delay expiry s).2
        = l₁ ++ (c, Outcome.rateLimited) :: l₂) :
    l₂ = [] ∧ ∃ pre post,
      linkKeys s = pre ++ c :: post ∧
      (updatePhotos env retries delay expiry s).2
        = (updatePhotosSeq env retries delay expiry pre s).2
            ++ [(c, Outcome.rateLimited)] ∧
      (updatePhotos env retries delay expiry s).1
        = (updatePhoto env retries delay expiry
            (updatePhotosSeq env retries delay expiry pre s).1 c).1 ∧
      (updatePhoto env retries delay expiry
          (updatePhotosSeq env retries delay expiry pre s).1 c).2
        = Outcome.rateLimited :=
  updatePhotosSeq_fatal_last env retries delay expiry (linkKeys s) s l₁ l₂ c h

/-- Claim C5 witness: the statement evaluated on a concrete run whose first
record hits the resolution failure. -/
theorem updatePhotos_fatal_stops_witness :
    (updatePhotos envA 3 0 30 stDue).2 = [] ++ (0, Outcome.rateLimited) :: [] ∧
    (([] : List (Nat × Outcome)) = [] ∧ ∃ pre post,
      linkKeys stDue = pre ++ 0 :: post ∧
      (updatePhotos envA 3 0 30 stDue).2
        = (updatePhotosSeq envA 3 0 30 pre stDue).2 ++ [(0, Outcome.rateLimited)] ∧
      (updatePhotos envA 3 0 30 stDue).1
        = (updatePhoto envA 3 0 30 (updatePhotosSeq envA 3 0 30 pre stDue).1 0).1 ∧
      (updatePhoto envA 3 0 30 (updatePhotosSeq envA 3 0 30 pre stDue).1 0).2
        = Outcome.rateLimited) :=
  ⟨by decide, updatePhotos_fatal_stops envA 3 0 30 stDue [] [] 0 (by decide)⟩

/-- Claim C3: for a record lacking a Link (or ignored, when `update_ignored`
is set), the automatic phase of `_update_links` creates a Link if and only if
the Matcher's top result score equals the configured threshold exactly: a
top hit with score equal to the threshold is linked to that top candidate and
not queued, while a top score different from the threshold — even strictly
above it — or an empty match list leaves the state untouched and queues the
record for interactive resolution. -/
theorem autoLink_strict_equality (env : Env) (updateIgnored : Bool)
    (th lim : Nat) (s : SinkState) (c : Nat) (name : String)
    (hn : needsLink s updateIgnored c = true)
    (hnd : (s.links.map Prod.fst).Nodup) :
    (∀ nm f tl, env.matcher name lim = (nm, th, f) :: tl →
      (autoPhase env updateIgnored th lim [(c, name)] s []).2 = [] ∧
      lookupA (autoPhase env updateIgnored th lim [(c, name)] s []).1.links c
        = some (some f)) ∧
    (∀ nm sc f tl, env.matcher name lim = (nm, sc, f) :: tl → sc ≠ th →
      autoPhase env updateIgnored th lim [(c, name)] s [] = (s, [c])) ∧
    (env.matcher name lim = [] →
      autoPhase env updateIgnored th lim [(c, name)] s [] = (s, [c])) := by
  refine ⟨?_, ?_, ?_⟩
  · intro nm f tl hm
    have htop : topScoreIs (env.matcher name lim) th = true := by
      rw [hm]
      simp [topScoreIs]
    have hfr : topFriend (env.matcher name lim) = f := by
      rw [hm]
      rfl
    have hstep : autoPhase env updateIgnored th lim [(c, name)] s []
        = (addLink env s c (some (topFriend (env.matcher name lim))), []) := by
      simp only [autoPhase, hn, if_true, htop]
    rw [hstep, hfr]
    exact ⟨rfl, lookupA_addLink env s c (some f) hnd⟩
  · intro nm sc f tl hm hne
    have htop : topScoreIs (env.matcher name lim) th = false := by
      rw [hm]
      simp [topScoreIs, hne]
    simp [autoPhase, hn, htop]
  · intro hm
    have htop : topScoreIs (env.matcher name lim) th = false := by
      rw [hm]
      rfl
    simp [autoPhase, hn, htop]

/-- Claim C3 witness: the strict-equality branch evaluated on the concrete
Jane Doe scenario from the spec, with threshold 100. -/
theorem autoLink_strict_equality_witness :
    needsLink stNoLink false 0 = true ∧
    ((autoPhase envMatch false 100 5 [(0, "Jane Doe")] stNoLink []).2 = [] ∧
     lookupA (autoPhase envMatch false 100 5 [(0, "Jane Doe")] stNoLink []).1.links 0
       = some (some 1)) :=
  ⟨by decide,
   (autoLink_strict_equality envMatch false 100 5 stNoLink 0 "Jane Doe" (by decide)
     (by decide)).1 "Jane Doe" 1 [("Jane D.", 90, 2)] (by decide)⟩

theorem getLinkGo_linked_mem (env : Env) (th lim c : Nat) :
    ∀ (inputs : List UserInput) (name : String) (s : SinkState) (f : Nat),
      (getLinkGo env th lim false c name inputs s).2.1 = LinkResult.linked f →
      ∃ n, UserInput.num n ∈ inputs := by
  intro inputs
  induction inputs with
  | nil =>
    intro name s f h
    have hstep : getLinkGo env th lim false c name [] s = (s, .stuck, []) := rfl
    rw [hstep] at h
    simp at h
  | cons i rest ih =>
    intro name s f h
    cases i with
    | empty =>
      exact absurd h (by
        have hstep : getLinkGo env th lim false c name (UserInput.empty :: rest) s
            = (addLink env s c none, .ignoredLink, rest) := rfl
        rw [hstep]
        simp)
    | num n => exact ⟨n, List.mem_cons_self _ _⟩
    | text t =>
      have hstep : getLinkGo env th lim false c name (UserInput.text t :: rest) s
          = getLinkGo env th lim false c t rest s := rfl
      rw [hstep] at h
      obtain ⟨n, hn⟩ := ih t s f h
      exact ⟨n, List.mem_cons_of_mem _ hn⟩

theorem getLinkGo_ignored_mem (env : Env) (th lim c : Nat) :
    ∀ (inputs : List UserInput) (name : String) (s : SinkState),
      (getLinkGo env th lim false c name inputs s).2.1 = LinkResult.ignoredLink →
      UserInput.empty ∈ inputs := by
  intro inputs
  induction inputs with
  | nil =>
    intro name s h
    have hstep : getLinkGo env th lim false c name [] s = (s, .stuck, []) := rfl
    rw [hstep] at h
    simp at h
  | cons i rest ih =>
    intro name s h
    cases i with
    | empty => exact List.mem_cons_self _ _
    | num n =>
      have hstep : getLinkGo env th lim false c name (UserInput.num n :: rest) s
          = if validCmd lim (UserInput.num n) then
              match (env.matcher name lim).get? (n - 1) with
              | some m => (addLink env s c (some m.2.2), .linked m.2.2, rest)
              | none => (s, .crashed, rest)
            else getLinkGo env th lim false c name rest s := rfl
      rw [hstep] at h
      cases hv : validCmd lim (UserInput.num n) with
      | true =>
        rw [hv] at h
        simp only [if_true] at h
        cases hg : (env.matcher name lim).get? (n - 1) with
        | some m =>
          rw [hg] at h
          simp at h
        | none =>
          rw [hg] at h
          simp at h
      | false =>
        rw [hv] at h
        simp only [Bool.false_eq_true, if_false] at h
        exact List.mem_cons_of_mem _ (ih name s h)
    | text t =>
      have hstep : getLinkGo env th lim false c name (UserInput.text t :: rest) s
          = getLinkGo env th lim false c t rest s := rfl
      rw [hstep] at h
      exact List.mem_cons_of_mem _ (ih t s h)

/-- Claim C8, counterexample: in forced-auto mode the interactive loop can
also terminate on a free-text input — re-searching "Jane Doe" hits the
threshold, auto-links and returns, consuming the whole script even though it
contains neither an index selection nor an empty input.  This refutes "the
interactive loop terminates only on index-selection or empty input". -/
theorem getLink_free_text_terminates_cex :
    (getLink envMatch 100 5 true 0 stMisnamed [UserInput.text "Jane Doe"]).2.1
      = LinkResult.linked 1 ∧
    (getLink envMatch 100 5 true 0 stMisnamed [UserInput.text "Jane Doe"]).2.2 = [] ∧
    [UserInput.text "Jane Doe"].all (fun i => !(isIndexOrEmpty i)) = true := by
  decide

/-- Claim C8, amended: in interactive link resolution, an in-range 1-based
index creates a Link to the selected candidate; free text re-runs the Matcher
against that text; empty input creates a null ("ignored") Link; an
out-of-range digit merely re-prompts; and with forced auto-match off the loop
terminates only on index-selection or empty input, while in forced-auto mode
it can additionally terminate by auto-linking when a (re-)search's top score
equals the threshold. -/
theorem getLink_interactive_spec (env : Env) (th lim c : Nat) :
    (∀ (auto : Bool) (name : String) (s : SinkState) (rest : List UserInput)
        (n : Nat) (nm : String) (sc f : Nat),
      (auto && topScoreIs (env.matcher name lim) th) = false →
      0 < n → n ≤ lim →
      (env.matcher name lim).get? (n - 1) = some (nm, sc, f) →
      getLinkGo env th lim auto c name (UserInput.num n :: rest) s
        = (addLink env s c (some f), LinkResult.linked f, rest) ∧
      ((s.links.map Prod.fst).Nodup →
        lookupA (addLink env s c (some f)).links c = some (some f))) ∧
    (∀ (auto : Bool) (name : String) (s : SinkState) (rest : List UserInput)
        (t : String),
      (auto && topScoreIs (env.matcher name lim) th) = false →
      getLinkGo env th lim auto c name (UserInput.text t :: rest) s
        = getLinkGo env th lim auto c t rest s) ∧
    (∀ (auto : Bool) (name : String) (s : SinkState) (rest : List UserInput),
      (auto && topScoreIs (env.matcher name lim) th) = false →
      getLinkGo env th lim auto c name (UserInput.empty :: rest) s
        = (addLink env s c none, LinkResult.ignoredLink, rest) ∧
      ((s.links.map Prod.fst).Nodup →
        lookupA (addLink env s c none).links c = some none)) ∧
    (∀ (auto : Bool) (name : String) (s : SinkState) (rest : List UserInput)
        (n : Nat),
      (auto && topScoreIs (env.matcher name lim) th) = false →
      ¬(0 < n ∧ n ≤ lim) →
      getLinkGo env th lim auto c name (UserInput.num n :: rest) s
        = getLinkGo env th lim auto c name rest s) ∧
    (∀ (inputs : List UserInput) (name : String) (s : SinkState) (f : Nat),
      (getLinkGo env th lim false c name inputs s).2.1 = LinkResult.linked f →
      ∃ n, UserInput.num n ∈ inputs) ∧
    (∀ (inputs : List UserInput) (name : String) (s : SinkState),
      (getLinkGo env th lim false c name inputs s).2.1 = LinkResult.ignoredLink →
      UserInput.empty ∈ inputs) := by
  refine ⟨?_, ?_, ?_, ?_, getLinkGo_linked_mem env th lim c,
    getLinkGo_ignored_mem env th lim c⟩
  · intro auto name s rest n nm sc f hauto hpos hle hget
    have hv : validCmd lim (UserInput.num n) = true := by
      simp [validCmd, hpos, hle]
    have hstep : getLinkGo env th lim auto c name (UserInput.num n :: rest) s
        = if auto && topScoreIs (env.matcher name lim) th then
            (addLink env s c (some (topFriend (env.matcher name lim))),
             .linked (topFriend (env.matcher name lim)), UserInput.num n :: rest)
          else if validCmd lim (UserInput.num n) then
            match (env.matcher name lim).get? (n - 1) with
            | some m => (addLink env s c (some m.2.2), .linked m.2.2, rest)
            | none => (s, .crashed, rest)
          else getLinkGo env th lim auto c name rest s := rfl
    refine ⟨?_, fun hnd => lookupA_addLink env s c (some f) hnd⟩
    rw [hstep, hauto, hv, hget]
    simp
  · intro auto name s rest t hauto
    have hstep : getLinkGo env th lim auto c name (UserInput.text t :: rest) s
        = if auto && topScoreIs (env.matcher name lim) th then
            (addLink env s c (some (topFriend (env.matcher name lim))),
             .linked (topFriend (env.matcher name lim)), UserInput.text t :: rest)
          else getLinkGo env th lim auto c t rest s := rfl
    rw [hstep, hauto]
    simp
  · intro auto name s rest hauto
    have hstep : getLinkGo env th lim auto c name (UserInput.empty :: rest) s
        = if auto && topScoreIs (env.matcher name lim) th then
            (addLink env s c (some (topFriend (env.matcher name lim))),
             .linked (topFriend (env.matcher name lim)), UserInput.empty :: rest)
          else (addLink env s c none, .ignoredLink, rest) := rfl
    refine ⟨?_, fun hnd => lookupA_addLink env s c none hnd⟩
    rw [hstep, hauto]
    simp
  · intro auto name s rest n hauto hbad
    have hv : validCmd lim (UserInput.num n) = false := by
      simp only [validCmd]
      rcases Decidable.not_and_iff_or_not.mp hbad with hb | hb
      · simp [hb]
      · simp [hb]
    have hstep : getLinkGo env th lim auto c name (UserInput.num n :: rest) s
        = if auto && topScoreIs (env.matcher name lim) th then
            (addLink env s c (some (topFriend (env.matcher name lim))),
             .linked (topFriend (env.matcher name lim)), UserInput.num n :: rest)
          else if validCmd lim (UserInput.num n) then
            match (env.matcher name lim).get? (n - 1) with
            | some m => (addLink env s c (some m.2.2), .linked m.2.2, rest)
            | none => (s, .crashed, rest)
          else getLinkGo env th lim auto c name rest s := rfl
    rw [hstep, hauto, hv]
    simp

/-- Claim C8 witness: the empty-input branch evaluated on a concrete state,
creating the ignored (null) link. -/
theorem getLink_interactive_spec_witness :
    (false && topScoreIs (envMatch.matcher "J. Doe" 5) 100) = false ∧
    (getLinkGo envMatch 100 5 false 0 "J. Doe" [UserInput.empty] stMisnamed
        = (addLink envMatch stMisnamed 0 none, LinkResult.ignoredLink, []) ∧
     ((stMisnamed.links.map Prod.fst).Nodup →
       lookupA (addLink envMatch stMisnamed 0 none).links 0 = some none)) :=
  ⟨by decide,
   (getLink_interactive_spec envMatch 100 5 0).2.2.1 false "J. Doe" stMisnamed []
     (by decide)⟩

theorem updatePhotosSeq_cons_fatal (env : Env) (retries delay expiry : Nat)
    (c : Nat) (cs : List Nat) (s : SinkState)
    (hr : (updatePhoto env retries delay expiry s c).2 = Outcome.rateLimited) :
    updatePhotosSeq env retries delay expiry (c :: cs) s
      = ((updatePhoto env retries delay expiry s c).1,
         [(c, (updatePhoto env retries delay expiry s c).2)]) := by
  simp only [updatePhotosSeq]
  rw [if_pos hr]

theorem updatePhotosSeq_cons_nf (env : Env) (retries delay expiry : Nat)
    (c : Nat) (cs : List Nat) (s : SinkState)
    (hr : (updatePhoto env retries delay expiry s c).2 ≠ Outcome.rateLimited) :
    updatePhotosSeq env retries delay expiry (c :: cs) s
      = ((updatePhotosSeq env retries delay expiry cs
            (updatePhoto env retries delay expiry s c).1).1,
         (c, (updatePhoto env retries delay expiry s c).2)
           :: (updatePhotosSeq env retries delay expiry cs
                (updatePhoto env retries delay expiry s c).1).2) := by
  simp only [updatePhotosSeq]
  rw [if_neg hr]

theorem updatePhotosSeq_singleton (env : Env) (retries delay expiry : Nat)
    (c : Nat) (s : SinkState) :
    updatePhotosSeq env retries delay expiry [c] s
      = ((updatePhoto env retries delay expiry s c).1,
         [(c, (updatePhoto env retries delay expiry s c).2)]) := by
  by_cases hr : (updatePhoto env retries delay expiry s c).2 = Outcome.rateLimited
  · exact updatePhotosSeq_cons_fatal env retries delay expiry c [] s hr
  · rw [updatePhotosSeq_cons_nf env retries delay expiry c [] s hr]
    simp [updatePhotosSeq]

theorem updatePhotosSeq_append (env : Env) (retries delay expiry : Nat) :
    ∀ (l₁ l₂ : List Nat) (s : SinkState),
      noFatal (updatePhotosSeq env retries delay expiry l₁ s).2 →
      updatePhotosSeq env retries delay expiry (l₁ ++ l₂) s
        = ((updatePhotosSeq env retries delay expiry l₂
              (updatePhotosSeq env retries delay expiry l₁ s).1).1,
           (updatePhotosSeq env retries delay expiry l₁ s).2
             ++ (updatePhotosSeq env retries delay expiry l₂
                  (updatePhotosSeq env retries delay expiry l₁ s).1).2) := by
  intro l₁
  induction l₁ with
  | nil =>
    intro l₂ s _
    simp [updatePhotosSeq]
  | cons c cs ih =>
    intro l₂ s hnf
    by_cases hr : (updatePhoto env retries delay expiry s c).2 = Outcome.rateLimited
    · exfalso
      have hc : (c, (updatePhoto env retries delay expiry s c).2)
          ∈ (updatePhotosSeq env retries delay expiry (c :: cs) s).2 := by
        rw [updatePhotosSeq_cons_fatal env retries delay expiry c cs s hr]
        simp
      exact hnf _ hc hr
    · have hnf' : noFatal (updatePhotosSeq env retries delay expiry cs
          (updatePhoto env retries delay expiry s c).1).2 := by
        intro x hx
        apply hnf
        rw [updatePhotosSeq_cons_nf env retries delay expiry c cs s hr]
        exact List.mem_cons_of_mem _ hx
      rw [show ((c :: cs) ++ l₂ : List Nat) = c :: (cs ++ l₂) from rfl,
        updatePhotosSeq_cons_nf env retries delay expiry c (cs ++ l₂) s hr,
        updatePhotosSeq_cons_nf env retries delay expiry c cs s hr, ih l₂ _ hnf']
      simp

theorem updatePhotosSeq_keys (env : Env) (retries delay expiry : Nat) :
    ∀ (l : List Nat) (s : SinkState),
      noFatal (updatePhotosSeq env retries delay expiry l s).2 →
      (updatePhotosSeq env retries delay expiry l s).2.map Prod.fst = l := by
  intro l
  induction l with
  | nil =>
    intro s _
    simp [updatePhotosSeq]
  | cons c cs ih =>
    intro s hnf
    by_cases hr : (updatePhoto env retries delay expiry s c).2 = Outcome.rateLimited
    · exfalso
      have hc : (c, (updatePhoto env retries delay expiry s c).2)
          ∈ (updatePhotosSeq env retries delay expiry (c :: cs) s).2 := by
        rw [updatePhotosSeq_cons_fatal env retries delay expiry c cs s hr]
        simp
      exact hnf _ hc hr
    · have hnf' : noFatal (updatePhotosSeq env retries delay expiry cs
          (updatePhoto env retries delay expiry s c).1).2 := by
        intro x hx
        apply hnf
        rw [updatePhotosSeq_cons_nf env retries delay expiry c cs s hr]
        exact List.mem_cons_of_mem _ hx
      rw [updatePhotosSeq_cons_nf env retries delay expiry c cs s hr]
      simp [ih _ hnf']

theorem not_mem_left_of_nodup_append_cons {a : Nat} {l₁ l₂ : List Nat}
    (h : (l₁ ++ a :: l₂).Nodup) : a ∉ l₁ := by
  intro hm
  rcases List.nodup_append.mp h with ⟨-, -, hdisj⟩
  exact hdisj hm (List.mem_cons_self a l₂)

theorem poolInv_init (env : Env) (retries delay expiry : Nat) (s0 : SinkState) :
    PoolInv env retries delay expiry (linkKeys s0) s0 (poolInit s0) := by
  left
  refine ⟨[], rfl, ?_, rfl, rfl, rfl, rfl, rfl, rfl⟩
  intro x hx
  simp [updatePhotosSeq] at hx

theorem updatePhotosSeq_snoc (env : Env) (retries delay expiry : Nat)
    (done : List Nat) (c : Nat) (s0 : SinkState)
    (hnf : noFatal (updatePhotosSeq env retries delay expiry done s0).2) :
    updatePhotosSeq env retries delay expiry (done ++ [c]) s0
      = ((updatePhoto env retries delay expiry
            (updatePhotosSeq env retries delay expiry done s0).1 c).1,
         (updatePhotosSeq env retries delay expiry done s0).2
           ++ [(c, (updatePhoto env retries delay expiry
                 (updatePhotosSeq env retries delay expiry done s0).1 c).2)]) := by
  rw [updatePhotosSeq_append env retries delay expiry done [c] s0 hnf,
    updatePhotosSeq_singleton]

theorem poolInv_step (env : Env) (retries delay expiry threads : Nat)
    (keys : List Nat) (s0 : SinkState) (hnd : keys.Nodup) (p q : PoolConf)
    (hinv : PoolInv env retries delay expiry keys s0 p)
    (hstep : PoolStep env retries delay expiry threads p q) :
    PoolInv env retries delay expiry keys s0 q := by
  cases hstep with
  | submit c rest hh hw ht =>
    rcases hinv with ⟨done, hk, hnf, hst, hfin, hpe, hru, hwa, hha⟩ |
      ⟨done, c', rest', hk, ht', hnf, hst, hfin, hpr, hwa, hha⟩ |
      ⟨done, c', rest', hk, ht', hnf, hst, hfin, hpe, hru, hwa, hha⟩ |
      ⟨hpe, hru, hwa, hha, hst, hfin⟩
    · right; left
      refine ⟨done, c, rest, ?_, rfl, hnf, hst, hfin, Or.inl ⟨?_, hru⟩, rfl, hh⟩
      · rw [hk, ht]
      · show p.pending ++ [c] = [c]
        rw [hpe]
        rfl
    · rw [hwa] at hw
      simp at hw
    · rw [hwa] at hw
      simp at hw
    · rw [hha] at hh
      simp at hh
  | mainDone hh hw ht =>
    rcases hinv with ⟨done, hk, hnf, hst, hfin, hpe, hru, hwa, hha⟩ |
      ⟨done, c', rest', hk, ht', hnf, hst, hfin, hpr, hwa, hha⟩ |
      ⟨done, c', rest', hk, ht', hnf, hst, hfin, hpe, hru, hwa, hha⟩ |
      ⟨hpe, hru, hwa, hha, hst, hfin⟩
    · right; right; right
      have hkeys : keys = done := by
        rw [hk, ht, List.append_nil]
      refine ⟨hpe, hru, hwa, rfl, ?_, ?_⟩
      · rw [hkeys]
        exact hst
      · rw [hkeys]
        exact hfin
    · rw [hwa] at hw
      simp at hw
    · rw [hwa] at hw
      simp at hw
    · rw [hha] at hh
      simp at hh
  | start c ps hpe' hlen =>
    rcases hinv with ⟨done, hk, hnf, hst, hfin, hpe, hru, hwa, hha⟩ |
      ⟨done, c', rest', hk, ht', hnf, hst, hfin, hpr, hwa, hha⟩ |
      ⟨done, c', rest', hk, ht', hnf, hst, hfin, hpe, hru, hwa, hha⟩ |
      ⟨hpe, hru, hwa, hha, hst, hfin⟩
    · rw [hpe] at hpe'
      simp at hpe'
    · rcases hpr with ⟨h1, h2⟩ | ⟨h1, h2⟩
      · rw [h1] at hpe'
        simp only [List.cons.injEq] at hpe'
        obtain ⟨hc, hps⟩ := hpe'
        subst hc
        right; left
        refine ⟨done, c', rest', hk, ht', hnf, hst, hfin, Or.inr ⟨?_, ?_⟩, hwa, hha⟩
        · show ps = []
          rw [← hps]
        · show p.running ++ [c'] = [c']
          rw [h2]
          rfl
      · rw [h1] at hpe'
        simp at hpe'
    · rw [hpe] at hpe'
      simp at hpe'
    · rw [hpe] at hpe'
      simp at hpe'
  | finish c hc =>
    rcases hinv with ⟨done, hk, hnf, hst, hfin, hpe, hru, hwa, hha⟩ |
      ⟨done, c', rest', hk, ht', hnf, hst, hfin, hpr, hwa, hha⟩ |
      ⟨done, c', rest', hk, ht', hnf, hst, hfin, hpe, hru, hwa, hha⟩ |
      ⟨hpe, hru, hwa, hha, hst, hfin⟩
    · rw [hru] at hc
      simp at hc
    · rcases hpr with ⟨h1, h2⟩ | ⟨h1, h2⟩
      · rw [h2] at hc
        simp at hc
      · rw [h2] at hc
        have hcc : c = c' := by
          simpa using hc
        subst hcc
        right; right; left
        refine ⟨done, c, rest', hk, ht', hnf, ?_, ?_, h1, ?_, hwa, hha⟩
        · show (updatePhoto env retries delay expiry p.st c).1 = _
          rw [hst]
        · show p.finished
              ++ [(c, (updatePhoto env retries delay expiry p.st c).2)] = _
          rw [hfin, hst]
        · show p.running.erase c = []
          rw [h2]
          simp
    · rw [hru] at hc
      simp at hc
    · rw [hru] at hc
      simp at hc
  | collectOk c o hw hmem hno =>
    rcases hinv with ⟨done, hk, hnf, hst, hfin, hpe, hru, hwa, hha⟩ |
      ⟨done, c', rest', hk, ht', hnf, hst, hfin, hpr, hwa, hha⟩ |
      ⟨done, c', rest', hk, ht', hnf, hst, hfin, hpe, hru, hwa, hha⟩ |
      ⟨hpe, hru, hwa, hha, hst, hfin⟩
    · rw [hwa] at hw
      simp at hw
    · rw [hwa] at hw
      have hcc : c' = c := by
        simpa using hw
      subst hcc
      exfalso
      rw [hfin] at hmem
      have hcd : c' ∈ done := by
        rw [← updatePhotosSeq_keys env retries delay expiry done s0 hnf]
        exact List.mem_map.mpr ⟨(c', o), hmem, rfl⟩
      exact not_mem_left_of_nodup_append_cons (hk ▸ hnd) hcd
    · rw [hwa] at hw
      have hcc : c' = c := by
        simpa using hw
      subst hcc
      rw [hfin] at hmem
      rcases List.mem_append.mp hmem with hm1 | hm2
      · exfalso
        have hcd : c' ∈ done := by
          rw [← updatePhotosSeq_keys env retries delay expiry done s0 hnf]
          exact List.mem_map.mpr ⟨(c', o), hm1, rfl⟩
        exact not_mem_left_of_nodup_append_cons (hk ▸ hnd) hcd
      · have ho : o = (updatePhoto env retries delay expiry
            (updatePhotosSeq env retries delay expiry done s0).1 c').2 := by
          simpa using hm2
        left
        have hsnoc := updatePhotosSeq_snoc env retries delay expiry done c' s0 hnf
        refine ⟨done ++ [c'], ?_, ?_, ?_, ?_, hpe, hru, rfl, hha⟩
        · show keys = (done ++ [c']) ++ p.todo
          rw [hk, ht']
          simp
        · rw [hsnoc]
          intro x hx
          rcases List.mem_append.mp hx with hxa | hxb
          · exact hnf x hxa
          · have hx' : x = (c', (updatePhoto env retries delay expiry
                (updatePhotosSeq env retries delay expiry done s0).1 c').2) := by
              simpa using hxb
            rw [hx']
            intro hcon
            exact hno (by rw [ho]; exact hcon)
        · show p.st = _
          rw [hsnoc]
          exact hst
        · show p.finished = _
          rw [hsnoc]
          exact hfin
    · rw [hwa] at hw
      simp at hw
  | collectFatal c hw hmem =>
    rcases hinv with ⟨done, hk, hnf, hst, hfin, hpe, hru, hwa, hha⟩ |
      ⟨done, c', rest', hk, ht', hnf, hst, hfin, hpr, hwa, hha⟩ |
      ⟨done, c', rest', hk, ht', hnf, hst, hfin, hpe, hru, hwa, hha⟩ |
      ⟨hpe, hru, hwa, hha, hst, hfin⟩
    · rw [hwa] at hw
      simp at hw
    · rw [hwa] at hw
      have hcc : c' = c := by
        simpa using hw
      subst hcc
      exfalso
      rw [hfin] at hmem
      have hcd : c' ∈ done := by
        rw [← updatePhotosSeq_keys env retries delay expiry done s0 hnf]
        exact List.mem_map.mpr ⟨(c', Outcome.rateLimited), hmem, rfl⟩
      exact not_mem_left_of_nodup_append_cons (hk ▸ hnd) hcd
    · rw [hwa] at hw
      have hcc : c' = c := by
        simpa using hw
      subst hcc
      rw [hfin] at hmem
      rcases List.mem_append.mp hmem with hm1 | hm2
      · exfalso
        have hcd : c' ∈ done := by
          rw [← updatePhotosSeq_keys env retries delay expiry done s0 hnf]
          exact List.mem_map.mpr ⟨(c', Outcome.rateLimited), hm1, rfl⟩
        exact not_mem_left_of_nodup_append_cons (hk ▸ hnd) hcd
      · have hfatal : (updatePhoto env retries delay expiry
            (updatePhotosSeq env retries delay expiry done s0).1 c').2
              = Outcome.rateLimited := by
          have := List.mem_singleton.mp hm2
          simpa using this.symm
        have hkeyseq : updatePhotosSeq env retries delay expiry keys s0
            = ((updatePhoto env retries delay expiry
                  (updatePhotosSeq env retries delay expiry done s0).1 c').1,
               (updatePhotosSeq env retries delay expiry done s0).2
                 ++ [(c', (updatePhoto env retries delay expiry
                       (updatePhotosSeq env retries delay expiry done s0).1 c').2)]) := by
          rw [hk, updatePhotosSeq_append env retries delay expiry done (c' :: rest') s0 hnf,
            updatePhotosSeq_cons_fatal env retries delay expiry c' rest' _ hfatal]
        right; right; right
        refine ⟨hpe, hru, rfl, rfl, ?_, ?_⟩
        · show p.st = _
          rw [hkeyseq]
          exact hst
        · show p.finished = _
          rw [hkeyseq]
          exact hfin
    · rw [hwa] at hw
      simp at hw

theorem poolReach_inv (env : Env) (retries delay expiry threads : Nat)
    (s0 : SinkState) (hnd : (linkKeys s0).Nodup) (p : PoolConf)
    (hr : PoolReach env retries delay expiry threads (poolInit s0) p) :
    PoolInv env retries delay expiry (linkKeys s0) s0 p := by
  induction hr with
  | refl => exact poolInv_init env retries delay expiry s0
  | tail q r hreach hstep ih =>
    exact poolInv_step env retries delay expiry threads (linkKeys s0) s0 hnd _ _
      ih hstep

/-- Claim C10: although `_update_photos` submits each record to a thread
pool, it blocks on each submitted future before dispatching the next, so in
every reachable configuration of the pool model at most one task is pending
or running (at most one worker is ever active), and every halted run ends
with exactly the state and outcome log of the plain sequential loop over the
links in link-map order. -/
theorem updatePhotos_pool_sequential (env : Env)
    (retries delay expiry threads : Nat) (s0 : SinkState) (p : PoolConf)
    (hnd : (linkKeys s0).Nodup)
    (hreach : PoolReach env retries delay expiry threads (poolInit s0) p) :
    p.pending.length + p.running.length ≤ 1 ∧
    (p.halted = true →
      p.st = (updatePhotos env retries delay expiry s0).1 ∧
      p.finished = (updatePhotos env retries delay expiry s0).2) := by
  have hinv := poolReach_inv env retries delay expiry threads s0 hnd p hreach
  rcases hinv with ⟨done, hk, hnf, hst, hfin, hpe, hru, hwa, hha⟩ |
    ⟨done, c', rest', hk, ht', hnf, hst, hfin, hpr, hwa, hha⟩ |
    ⟨done, c', rest', hk, ht', hnf, hst, hfin, hpe, hru, hwa, hha⟩ |
    ⟨hpe, hru, hwa, hha, hst, hfin⟩
  · refine ⟨by simp [hpe, hru], ?_⟩
    intro hh
    rw [hha] at hh
    simp at hh
  · refine ⟨?_, ?_⟩
    · rcases hpr with ⟨h1, h2⟩ | ⟨h1, h2⟩
      · simp [h1, h2]
      · simp [h1, h2]
    · intro hh
      rw [hha] at hh
      simp at hh
  · refine ⟨by simp [hpe, hru], ?_⟩
    intro hh
    rw [hha] at hh
    simp at hh
  · exact ⟨by simp [hpe, hru], fun _ => ⟨hst, hfin⟩⟩

/-- Claim C10 witness: the theorem evaluated on the empty-links run, whose
single step is the main thread finishing its dispatch loop. -/
theorem updatePhotos_pool_sequential_witness :
    (linkKeys stEmpty).Nodup ∧
    (({ poolInit stEmpty with halted := true } : PoolConf).pending.length
        + ({ poolInit stEmpty with halted := true } : PoolConf).running.length ≤ 1 ∧
     (({ poolInit stEmpty with halted := true } : PoolConf).halted = true →
        ({ poolInit stEmpty with halted := true } : PoolConf).st
          = (updatePhotos envA 3 0 30 stEmpty).1 ∧
        ({ poolInit stEmpty with halted := true } : PoolConf).finished
          = (updatePhotos envA 3 0 30 stEmpty).2)) :=
  ⟨by decide,
   updatePhotos_pool_sequential envA 3 0 30 7 stEmpty _ (by decide)
     (PoolReach.tail _ _ _ (PoolReach.refl _) (PoolStep.mainDone _ rfl rfl rfl))⟩

end Sink
